import Mathlib

/-!
Verification development for the BAPCtools test-data generation pipeline
(`bin/generate.py`, `bin/program.py`).  The Python sources are shallowly
embedded: pure computations become Lean functions, the per-testcase
generation step becomes an explicit state transformer, and the parallel
run-phase scheduler becomes a constraint relation on dispatch/completion
times.  Machine-level details that the sources delegate to the Python
standard library (the sha512 digest, the exact regex engine) are made
explicit parameters or direct string operations, documented at each
definition.
-/

/-- Exit classification of one external program execution.  `ExecStatus`
itself lives in `util.py` (not among the embedded sources); it is modelled
from its use sites in `program.py`: `ACCEPTED` is the only truthy value,
and `TIMEOUT` / `REJECTED` / `ERROR` are falsy. -/
inductive ExecStatus where
  | accepted
  | rejected
  | timeout
  | error
deriving DecidableEq, Repr

/-- Python truthiness of an `ExecStatus` (`if not result.status`). -/
def statusOk : ExecStatus → Bool
  | .accepted => true
  | _ => false

/-! ## Invocation: seed and name substitution (`generate.py`, class `Invocation`) -/

/-- The literal `\x7bseed\x7d` placeholder.  `Invocation.SEED_REGEX` also accepts a
padded variant `\x7bseed:N\x7d`; the claims under study only exercise the plain
form, which is what this embedding substitutes. -/
def seedMarker : String := "\x7bseed\x7d"

/-- The literal `\x7bname\x7d` placeholder (`Invocation.NAME_REGEX`). -/
def nameMarker : String := "\x7bname\x7d"

/-- Replace every non-overlapping occurrence of `pat` by `rep`, scanning
left to right — the semantics of `re.sub` for a literal pattern.  Written
over character lists so that it evaluates inside the kernel. -/
def replaceCharsF (pat rep : List Char) : Nat → List Char → List Char
  | _, [] => []
  | 0, l => l
  | fuel + 1, c :: cs =>
    if pat ≠ [] ∧ pat.isPrefixOf (c :: cs) = true then
      rep ++ replaceCharsF pat rep fuel (List.drop pat.length (c :: cs))
    else
      c :: replaceCharsF pat rep fuel cs

/-- Entry point of `replaceCharsF`: each step consumes at least one input
character, so a fuel of `l.length` always suffices. -/
def replaceChars (pat rep l : List Char) : List Char :=
  replaceCharsF pat rep l.length l

/-- `SEED_REGEX.sub(str(seed), s)` for the plain `\x7bseed\x7d` form. -/
def subSeed (seed : Nat) (s : String) : String :=
  ⟨replaceChars seedMarker.data (toString seed).data s.data⟩

/-- `NAME_REGEX.sub(str(name), s)`. -/
def subName (n : String) (s : String) : String :=
  ⟨replaceChars nameMarker.data n.data s.data⟩

/-- `Invocation.cache_command(seed=None)`: the command string used for cache
records.  The seed is substituted only when `seed` is truthy in Python,
i.e. not `None` and not `0`. -/
def cache_command (cmd : String) (seed : Option Nat) : String :=
  match seed with
  | some n => if n != 0 then subSeed n cmd else cmd
  | none => cmd

/-- `Invocation._sub_args(name=..., seed=...)`: runtime argument list with
`\x7bname\x7d` and `\x7bseed\x7d` substituted, each under Python truthiness of the
corresponding keyword (an empty name and a zero seed are falsy). -/
def sub_args (args : List String) (name : Option String) (seed : Option Nat) :
    List String :=
  args.map (fun arg =>
    let a1 := match name with
      | some n => if n != "" then subName n arg else arg
      | none => arg
    match seed with
    | some n => if n != 0 then subSeed n a1 else a1
    | none => a1)

/-! ## Seed derivation (`TestcaseRule.__init__`) -/

/-- Seed of a generated testcase:
`int(hashlib.sha512((salt + command).encode()).hexdigest(), 16) % 2**31`.
The sha512 digest-as-integer comes from `hashlib` (outside the sources) and
is therefore a parameter `sha512hex`; everything else is the source
expression. -/
def derive_seed (sha512hex : String → Nat) (salt command : String) : Nat :=
  sha512hex (salt ++ command) % 2 ^ 31

/-! ## Generator execution (`program.py`, `Generator.run`) -/

/-- Raw observable behaviour of one generator process execution: its exit
classification, its stderr text, what it printed on stdout (captured into
`name.in_`), and the `name.in` file it wrote, if any. -/
structure GenExec where
  status : ExecStatus
  err : String
  stdout : String
  inFile : Option String
deriving DecidableEq, Repr

/-- Result of `Generator.run` as consumed by callers: the final status, the
retry flag, the error text, the final content of `name.in`, and whether the
"wrote to both" warning fired. -/
structure RunResult where
  status : ExecStatus
  retry : Bool
  err : String
  inFile : Option String
  warnedBoth : Bool
deriving DecidableEq, Repr

/-- `Generator.run` (`program.py`): classify the execution.  `result.retry`
starts `False`; a timeout returns immediately; any other falsy status sets
`retry` and returns; on success, nonempty stdout is either discarded with a
warning (when `name.in` exists) or renamed to `name.in`; empty stdout with
no `name.in` is rejected. -/
def generatorRun (x : GenExec) : RunResult :=
  if x.status = .timeout then
    { status := x.status, retry := false, err := x.err, inFile := x.inFile,
      warnedBoth := false }
  else if statusOk x.status = false then
    { status := x.status, retry := true, err := x.err, inFile := x.inFile,
      warnedBoth := false }
  else if x.stdout ≠ "" then
    match x.inFile with
    | some c =>
      { status := x.status, retry := false, err := x.err, inFile := some c,
        warnedBoth := true }
    | none =>
      { status := x.status, retry := false, err := x.err,
        inFile := some x.stdout, warnedBoth := false }
  else if x.inFile = none then
    { status := .rejected, retry := false, err := x.err, inFile := none,
      warnedBoth := false }
  else
    { status := x.status, retry := false, err := x.err, inFile := x.inFile,
      warnedBoth := false }

/-! ## Retry loop (`generate.py`, `GeneratorInvocation.run`) -/

/-- `GeneratorInvocation.run(cwd, name, seed, retries)` instrumented with the
list of seeds actually attempted.  The source loop tries seeds
`seed, seed+1, ...` for at most `retries` iterations and returns the first
result whose `retry` flag is clear, or the last result when all attempts are
retryable.  `retries = 0` never occurs in the source (the config default is
`1`); that case is given the same value as one attempt. -/
def genInvocationRunT (progRun : Nat → RunResult) (seed : Nat) :
    Nat → RunResult × List Nat
  | 0 => (progRun seed, [seed])
  | 1 => (progRun seed, [seed])
  | r + 2 =>
    let res := progRun seed
    if res.retry then
      let rest := genInvocationRunT progRun (seed + 1) (r + 1)
      (rest.1, seed :: rest.2)
    else (res, [seed])

/-- The returned `RunResult` of `GeneratorInvocation.run`. -/
def generatorInvocationRun (progRun : Nat → RunResult) (seed retries : Nat) :
    RunResult :=
  (genInvocationRunT progRun seed retries).1

/-! ## Properties of the retry loop -/

theorem genInv_master (progRun : Nat → RunResult) :
    ∀ r seed, 1 ≤ r →
      1 ≤ (genInvocationRunT progRun seed r).2.length ∧
      (genInvocationRunT progRun seed r).2.length ≤ r ∧
      (∀ i, i < (genInvocationRunT progRun seed r).2.length →
        (genInvocationRunT progRun seed r).2.get? i = some (seed + i)) ∧
      (genInvocationRunT progRun seed r).1 =
        progRun (seed + ((genInvocationRunT progRun seed r).2.length - 1)) ∧
      (∀ i, i + 1 < (genInvocationRunT progRun seed r).2.length →
        (progRun (seed + i)).retry = true) ∧
      ((genInvocationRunT progRun seed r).2.length < r →
        (progRun (seed + ((genInvocationRunT progRun seed r).2.length - 1))).retry
          = false) := by
  intro r
  induction r using Nat.strong_induction_on with
  | _ r ih =>
    match r with
    | 0 =>
      intro seed h0
      exact absurd h0 (by omega)
    | 1 =>
      intro seed _
      simp [genInvocationRunT]
    | (r + 2) =>
      intro seed _
      by_cases h : (progRun seed).retry
      · have ihs := ih (r + 1) (by omega) (seed + 1) (by omega)
        obtain ⟨h1, h2, h3, h4, h5, h6⟩ := ihs
        simp only [genInvocationRunT, h, if_true]
        refine ⟨by simp, by simpa using h2, ?_, ?_, ?_, ?_⟩
        · intro i hi
          match i with
          | 0 => simp
          | (j + 1) =>
            simp only [List.length_cons] at hi
            have := h3 j (by omega)
            simpa [Nat.add_comm, Nat.add_assoc, Nat.add_left_comm] using this
        · simp only [List.length_cons, Nat.add_sub_cancel]
          rw [h4]
          congr 1
          omega
        · intro i hi
          simp only [List.length_cons] at hi
          match i with
          | 0 => simpa using h
          | (j + 1) =>
            have := h5 j (by omega)
            simpa [Nat.add_comm, Nat.add_assoc, Nat.add_left_comm] using this
        · intro hlt
          simp only [List.length_cons] at hlt ⊢
          have := h6 (by omega)
          simp only [Nat.add_sub_cancel]
          have e : seed + 1 + ((genInvocationRunT progRun (seed + 1) (r + 1)).2.length - 1)
              = seed + (genInvocationRunT progRun (seed + 1) (r + 1)).2.length := by
            omega
          rwa [e] at this
      · simp only [genInvocationRunT, h, Bool.false_eq_true, if_false]
        refine ⟨by simp, by simp, ?_, by simp, ?_, ?_⟩
        · intro i hi
          simp only [List.length_cons, List.length_nil] at hi
          cases i with
          | zero => simp
          | succ j => exact absurd hi (by omega)
        · intro i hi
          simp only [List.length_cons, List.length_nil] at hi
          exact absurd hi (by omega)
        · intro _
          simpa using h

/-- C2.  For a configured retry count `r ≥ 1` and derived seed `seed`, the
generator is invoked at most `r` times with consecutive seeds
`seed, seed+1, …, seed+r-1`; the first invocation whose result is not
retryable is the one returned (in particular, failures at seeds
`seed … seed+r-2` followed by success at `seed+r-1` report that last
invocation's result); a timeout is never marked retryable, so it is
returned by the first clause immediately; and when all `r` attempts are
retryable the last attempt's result (with its error text) is returned. -/
theorem c2_retry_policy (progRun : Nat → RunResult) (seed r : Nat) (hr : 1 ≤ r) :
    ((genInvocationRunT progRun seed r).2.length ≤ r ∧
      ∀ i, i < (genInvocationRunT progRun seed r).2.length →
        (genInvocationRunT progRun seed r).2.get? i = some (seed + i)) ∧
    (∀ k, k < r → (∀ m, m < k → (progRun (seed + m)).retry = true) →
      (progRun (seed + k)).retry = false →
      generatorInvocationRun progRun seed r = progRun (seed + k) ∧
      (genInvocationRunT progRun seed r).2.length = k + 1) ∧
    ((∀ m, m < r → (progRun (seed + m)).retry = true) →
      generatorInvocationRun progRun seed r = progRun (seed + (r - 1)) ∧
      (genInvocationRunT progRun seed r).2.length = r) ∧
    (∀ x : GenExec, x.status = .timeout → (generatorRun x).retry = false) := by
  obtain ⟨h1, h2, h3, h4, h5, h6⟩ := genInv_master progRun r seed hr
  set n := (genInvocationRunT progRun seed r).2.length with hn
  refine ⟨⟨h2, h3⟩, ?_, ?_, ?_⟩
  · intro k hk hmin hstop
    have hlen : n = k + 1 := by
      rcases Nat.lt_trichotomy (n - 1) k with hlt | heq | hgt
      · exfalso
        have hnr : n < r := by omega
        have := h6 hnr
        have := hmin (n - 1) hlt
        rw [this] at *
        simp_all
      · omega
      · exfalso
        have := h5 k (by omega)
        rw [this] at hstop
        simp at hstop
      
    constructor
    · rw [generatorInvocationRun, h4, hlen]
      simp
    · exact hlen
  · intro hall
    have hlen : n = r := by
      by_contra hne
      have hnr : n < r := by omega
      have := h6 hnr
      have := hall (n - 1) (by omega)
      simp_all
    constructor
    · rw [generatorInvocationRun, h4, hlen]
    · exact hlen
  · intro x hx
    simp [generatorRun, hx]

/-- Witness for C2 at a concrete instance: three retries, the first two
attempts retryable, the third accepted; the loop reports the third
attempt's result. -/
theorem c2_retry_policy_witness :
    (fun s => if s < 12 then
        ({ status := .error, retry := true, err := "boom", inFile := none,
           warnedBoth := false } : RunResult)
      else
        { status := .accepted, retry := false, err := "", inFile := some "7",
          warnedBoth := false }) 12 =
      { status := .accepted, retry := false, err := "", inFile := some "7",
        warnedBoth := false } ∧
    generatorInvocationRun
      (fun s => if s < 12 then
        { status := .error, retry := true, err := "boom", inFile := none,
          warnedBoth := false }
      else
        { status := .accepted, retry := false, err := "", inFile := some "7",
          warnedBoth := false }) 10 3 =
      { status := .accepted, retry := false, err := "", inFile := some "7",
        warnedBoth := false } := by
  constructor
  · decide
  · have := (c2_retry_policy
      (fun s => if s < 12 then
        { status := .error, retry := true, err := "boom", inFile := none,
          warnedBoth := false }
      else
        { status := .accepted, retry := false, err := "", inFile := some "7",
          warnedBoth := false }) 10 3 (by decide)).2.1 2 (by decide)
      (by decide) (by decide)
    simpa using this.1

/-- C4.  The derived seed is a deterministic function of the resolved
`random_salt` and the generator command string taking 31-bit values; for a
fixed salt, distinct command strings feed distinct inputs to the sha512
digest (and likewise distinct salts for a fixed command), so collisions can
only come from the digest itself. -/
theorem c4_seed_derivation (sha512hex : String → Nat) (salt command : String) :
    derive_seed sha512hex salt command < 2 ^ 31 ∧
    (∀ salt2 command2, salt = salt2 → command = command2 →
      derive_seed sha512hex salt command = derive_seed sha512hex salt2 command2) ∧
    (∀ command2, command ≠ command2 → salt ++ command ≠ salt ++ command2) ∧
    (∀ salt2, salt ≠ salt2 → salt ++ command ≠ salt2 ++ command) := by
  refine ⟨Nat.mod_lt _ (by norm_num), ?_, ?_, ?_⟩
  · intro s2 c2 hs hc
    rw [hs, hc]
  · intro c2 hne he
    apply hne
    have : (salt ++ command).data = (salt ++ c2).data := by rw [he]
    simp only [String.data_append] at this
    have := List.append_cancel_left this
    exact String.ext this
  · intro s2 hne he
    apply hne
    have : (salt ++ command).data = (s2 ++ command).data := by rw [he]
    simp only [String.data_append] at this
    have := List.append_cancel_right this
    exact String.ext this

/-- Witness for C4 at concrete inputs. -/
theorem c4_seed_derivation_witness :
    derive_seed String.length "salt" "gen.py 10" < 2 ^ 31 ∧
    "salt" ++ "gen.py 10" ≠ "salt" ++ "gen.py 20" := by
  have h := c4_seed_derivation String.length "salt" "gen.py 10"
  exact ⟨h.1, h.2.2.1 "gen.py 20" (by decide)⟩

/-- C9.  For a generator execution whose process exited successfully:
empty stdout with no `name.in` written is a hard failure (status becomes
`REJECTED`); nonempty stdout alongside an explicitly written `name.in`
keeps the file, discards the stream and warns; nonempty stdout with no
`name.in` becomes the `name.in` content. -/
theorem c9_output_channels (x : GenExec) (hx : x.status = .accepted) :
    (x.stdout = "" → x.inFile = none →
      (generatorRun x).status = .rejected ∧ (generatorRun x).inFile = none) ∧
    (x.stdout ≠ "" → ∀ c, x.inFile = some c →
      (generatorRun x).inFile = some c ∧ (generatorRun x).warnedBoth = true ∧
      (generatorRun x).status = .accepted) ∧
    (x.stdout ≠ "" → x.inFile = none →
      (generatorRun x).inFile = some x.stdout ∧
      (generatorRun x).status = .accepted ∧
      (generatorRun x).warnedBoth = false) := by
  refine ⟨?_, ?_, ?_⟩
  · intro hs hf
    simp [generatorRun, hx, statusOk, hs, hf]
  · intro hs c hf
    simp [generatorRun, hx, statusOk, hs, hf]
  · intro hs hf
    simp [generatorRun, hx, statusOk, hs, hf]

/-- Witness for C9: a successful execution that wrote nothing anywhere is
rejected. -/
theorem c9_output_channels_witness :
    (generatorRun
      { status := .accepted, err := "", stdout := "", inFile := none }).status
        = .rejected ∧
    (generatorRun
      { status := .accepted, err := "", stdout := "", inFile := none }).inFile
        = none := by
  exact (c9_output_channels
    { status := .accepted, err := "", stdout := "", inFile := none }
    rfl).1 rfl rfl

/-- C10.  Seed substitution in `Invocation.cache_command` and
`Invocation._sub_args` is guarded by Python truthiness of the seed, so the
seed value `0` is passed through without substitution (exactly like `None`),
while every nonzero seed is substituted in both the cache string and the
runtime argument list. -/
theorem c10_seed_zero_truthiness (cmd : String) (args : List String)
    (nm : Option String) :
    cache_command cmd (some 0) = cmd ∧
    sub_args args nm (some 0) = sub_args args nm none ∧
    (∀ n : Nat, n ≠ 0 →
      cache_command cmd (some n) = subSeed n cmd ∧
      sub_args args nm (some n) = (sub_args args nm none).map (subSeed n)) := by
  refine ⟨rfl, rfl, ?_⟩
  intro n hn
  have hb : (n != 0) = true := by simpa using hn
  constructor
  · simp [cache_command, hb]
  · simp only [sub_args, hb, if_true, List.map_map]
    rfl

/-- Witness for C10: seed `0` leaves the placeholder in the cache command,
seed `7` substitutes it. -/
theorem c10_seed_zero_truthiness_witness :
    cache_command "gen.py \x7bseed\x7d" (some 0) = "gen.py \x7bseed\x7d" ∧
    cache_command "gen.py \x7bseed\x7d" (some 7) =
      subSeed 7 "gen.py \x7bseed\x7d" := by
  have h := c10_seed_zero_truthiness "gen.py \x7bseed\x7d" [] none
  exact ⟨h.1, (h.2.2 7 (by decide)).1⟩

/-! ## Cache record and per-testcase generation (`TestcaseRule.generate`) -/

/-- The persisted `meta_.yaml` contents (`t.cache_data`): one optional entry
per contributing command, present exactly when configured. -/
structure CacheRecord where
  source : Option String
  generator : Option String
  solution : Option String
  visualizer : Option String
deriving DecidableEq, Repr

/-- The static environment of one testcase rule as seen by
`TestcaseRule.generate`: whether it is manual, its manual source path and
ctime, its generator command and derived seed, the generator program's
build timestamp, and the optional solution / visualizer cache commands with
their programs' build timestamps. -/
structure TcEnv where
  manual : Bool
  source : String
  sourceCtime : Nat
  generatorCmd : String
  seed : Nat
  generatorTs : Nat
  solutionCmd : Option String
  solutionTs : Nat
  visualizerCmd : Option String
  visualizerTs : Nat
deriving DecidableEq, Repr

/-- `t.cache_data` as recomputed inside `up_to_date()`: the manual source
path or the generator command with the seed substituted, plus the solution
and visualizer cache commands when configured. -/
def cacheData (e : TcEnv) : CacheRecord :=
  { source := if e.manual then some e.source else none
    generator :=
      if e.manual then none else some (cache_command e.generatorCmd (some e.seed))
    solution := e.solutionCmd.map (fun c => cache_command c none)
    visualizer := e.visualizerCmd.map (fun c => cache_command c none) }

/-- Timestamps folded into `last_change`: the manual source's ctime or the
generator program's timestamp, then the solution and visualizer program
timestamps when configured. -/
def contributors (e : TcEnv) : List Nat :=
  (if e.manual then [e.sourceCtime] else [e.generatorTs]) ++
  (if e.solutionCmd.isSome then [e.solutionTs] else []) ++
  (if e.visualizerCmd.isSome then [e.visualizerTs] else [])

/-- `last_change` from `up_to_date()`: maximum of the contributing
timestamps, starting from `0`. -/
def lastChange (e : TcEnv) : Nat :=
  (contributors e).foldl max 0

/-- `up_to_date()` in `TestcaseRule.generate`: the record file must exist,
its ctime must be `>= last_change`, and its parsed contents must equal the
recomputed `cache_data`. -/
def up_to_date (e : TcEnv) (meta : Option (CacheRecord × Nat)) : Bool :=
  match meta with
  | none => false
  | some (rec, ct) => decide (lastChange e ≤ ct) && decide (rec = cacheData e)

/-- On-disk state owned by one testcase: the committed files in the data
tree keyed by extension, and the scratch `meta_.yaml` record (contents and
ctime). -/
structure TcState where
  committed : String → Option String
  meta : Option (CacheRecord × Nat)

/-- Per-extension materialization step of `TestcaseRule.generate`: given the
newly produced scratch artifact and the committed target, return the new
committed content, whether the `skipped` flag was set, and whether a warning
fired.  Only a differing target skipped without `-f` sets `skipped`; a
missing artifact with an existing target is skipped (or removed under `-f`)
without setting the flag. -/
def materializeExt (forced : Bool) (src tgt : Option String) :
    Option String × Bool × Bool :=
  match src, tgt with
  | some s, some t =>
    if s = t then (some t, false, false)
    else if forced then (some s, false, false)
    else (some t, true, true)
  | some s, none => (some s, false, false)
  | none, some t => if forced then (none, false, true) else (some t, false, true)
  | none, none => (none, false, false)

/-- The `for ext in config.KNOWN_DATA_EXTENSIONS` materialization loop, as a
fold over the extension list (the list itself lives in `config.py`, outside
the sources, and is a parameter).  Accumulates the committed-file map and
the `skipped` flag. -/
def materializeAll (exts : List String) (forced : Bool)
    (produced committed : String → Option String) :
    (String → Option String) × Bool :=
  match exts with
  | [] => (committed, false)
  | ext :: rest =>
    let step := materializeExt forced (produced ext) (committed ext)
    let r := materializeAll rest forced produced
      (fun x => if x = ext then step.1 else committed x)
    (r.1, step.2.1 || r.2)

/-- Outcome of one `TestcaseRule.generate` call. -/
inductive GenOutcome where
  | upToDate
  | failed
  | materialized (skippedFiles : Bool)
deriving DecidableEq, Repr

/-- `TestcaseRule.generate` on the state it owns.  `produced` is the map of
scratch artifacts present after the generate/validate/solve/visualize steps
(deterministic in the environment), and `ok` abstracts whether those steps
all succeeded (each failure is an early `return` leaving the state
untouched).  When materialization runs, the scratch directory is then
purged — `meta_.yaml` included, since the purge loop only spares a file
named `meta_` — and the record is rewritten only when nothing was skipped. -/
def testcaseGenerate (exts : List String) (e : TcEnv)
    (produced : String → Option String) (ok forced : Bool) (now : Nat)
    (st : TcState) : GenOutcome × TcState :=
  if up_to_date e st.meta then (.upToDate, st)
  else if !ok then (.failed, st)
  else
    let m := materializeAll exts forced produced st.committed
    ( .materialized m.2,
      { committed := m.1,
        meta := if m.2 then none else some (cacheData e, now) } )

/-! ## C3: the up-to-date check -/

theorem foldl_max_le_iff (l : List Nat) (b c : Nat) :
    l.foldl max b ≤ c ↔ b ≤ c ∧ ∀ x ∈ l, x ≤ c := by
  induction l generalizing b with
  | nil => simp
  | cons x xs ih =>
    simp only [List.foldl_cons, List.mem_cons]
    rw [ih]
    constructor
    · rintro ⟨h1, h2⟩
      refine ⟨le_trans (le_max_left _ _) h1, fun y hy => ?_⟩
      rcases hy with rfl | hy
      · exact le_trans (le_max_right _ _) h1
      · exact h2 y hy
    · rintro ⟨h1, h2⟩
      exact ⟨max_le h1 (h2 x (Or.inl rfl)), fun y hy => h2 y (Or.inr hy)⟩

theorem up_to_date_iff (e : TcEnv) (meta : Option (CacheRecord × Nat)) :
    up_to_date e meta = true ↔
      ∃ rec ct, meta = some (rec, ct) ∧ rec = cacheData e ∧
        ∀ ts ∈ contributors e, ts ≤ ct := by
  cases hm : meta with
  | none => simp [up_to_date]
  | some p =>
    obtain ⟨rec, ct⟩ := p
    simp only [up_to_date, Bool.and_eq_true, decide_eq_true_eq,
      Option.some.injEq, Prod.mk.injEq]
    constructor
    · rintro ⟨h1, h2⟩
      refine ⟨rec, ct, ⟨rfl, rfl⟩, h2, ?_⟩
      exact ((foldl_max_le_iff (contributors e) 0 ct).mp h1).2
    · rintro ⟨rec2, ct2, ⟨hr, hc⟩, h2, h3⟩
      subst hr
      subst hc
      exact ⟨(foldl_max_le_iff (contributors e) 0 _).mpr ⟨Nat.zero_le _, h3⟩, h2⟩

/-- The environment of the C3 counterexample: a generated testcase whose
generator program was built at timestamp 5, with no solution and no
visualizer configured. -/
def e3 : TcEnv :=
  { manual := false, source := "", sourceCtime := 0,
    generatorCmd := "gen.py \x7bseed\x7d", seed := 1, generatorTs := 5,
    solutionCmd := none, solutionTs := 0, visualizerCmd := none,
    visualizerTs := 0 }

/-- The state of the C3 counterexample: a matching record whose ctime
equals (rather than exceeds) the generator's build timestamp. -/
def st3 : TcState :=
  { committed := fun _ => none, meta := some (cacheData e3, 5) }

/-- C3, counterexample.  The claim requires the record's timestamp to be
strictly newer than every contributing timestamp, but the source accepts
equality (`meta_path.stat().st_ctime >= last_change`): with the record
ctime equal to the generator's build timestamp the testcase is still
treated as up to date. -/
theorem c3_counterexample :
    ¬ (∀ (exts : List String) (e : TcEnv) (produced : String → Option String)
        (ok forced : Bool) (now : Nat) (st : TcState),
        (testcaseGenerate exts e produced ok forced now st).1 = .upToDate ↔
          ∃ rec ct, st.meta = some (rec, ct) ∧ rec = cacheData e ∧
            ∀ ts ∈ contributors e, ts < ct) := by
  intro hcl
  obtain ⟨rec, ct, hmeta, -, hts⟩ :=
    (hcl [] e3 (fun _ => none) true false 0 st3).mp (by decide)
  have hmeta2 : some (cacheData e3, 5) = some (rec, ct) := hmeta
  simp only [Option.some.injEq, Prod.mk.injEq] at hmeta2
  obtain ⟨-, hct⟩ := hmeta2
  have h5 : (5 : Nat) ∈ contributors e3 := by decide
  have := hts 5 h5
  omega

/-- C3, amended.  `TestcaseRule.generate` takes the up-to-date path (and
leaves its state untouched) exactly when the persisted record exists, its
contents equal the recomputed record, and its timestamp is newer than *or
equal to* every contributing timestamp; any mismatch, including a missing
record, sends it into full regeneration. -/
theorem c3_up_to_date_characterization (exts : List String) (e : TcEnv)
    (produced : String → Option String) (ok forced : Bool) (now : Nat)
    (st : TcState) :
    ((testcaseGenerate exts e produced ok forced now st).1 = .upToDate ↔
      ∃ rec ct, st.meta = some (rec, ct) ∧ rec = cacheData e ∧
        ∀ ts ∈ contributors e, ts ≤ ct) ∧
    (up_to_date e st.meta = true →
      testcaseGenerate exts e produced ok forced now st = (.upToDate, st)) := by
  constructor
  · rw [← up_to_date_iff]
    cases hu : up_to_date e st.meta with
    | true => simp [testcaseGenerate, hu]
    | false =>
      simp only [testcaseGenerate, hu, Bool.false_eq_true, if_false]
      cases ok with
      | true => simp
      | false => simp
  · intro hu
    simp [testcaseGenerate, hu]

/-! ## C7 / C8: materialization, conflicts and idempotence -/

/-- A differing-content conflict at extension `x`: both a newly produced
artifact and a committed target exist and their contents differ. -/
def differConflict (produced committed : String → Option String)
    (x : String) : Prop :=
  ∃ s t, produced x = some s ∧ committed x = some t ∧ s ≠ t

theorem materializeExt_skip_iff (produced committed : String → Option String)
    (x : String) :
    (materializeExt false (produced x) (committed x)).2.1 = true ↔
      differConflict produced committed x := by
  unfold differConflict
  cases hp : produced x with
  | none =>
    cases hc : committed x <;> simp [materializeExt]
  | some s =>
    cases hc : committed x with
    | none => simp [materializeExt]
    | some t =>
      by_cases hst : s = t
      · subst hst
        simp [materializeExt]
      · simp only [materializeExt, if_neg hst, Bool.false_eq_true, if_false]
        constructor
        · intro _
          exact ⟨s, t, rfl, rfl, hst⟩
        · intro _
          trivial

theorem materializeAll_spec (forced : Bool)
    (produced : String → Option String) :
    ∀ (exts : List String), exts.Nodup → ∀ committed : String → Option String,
      (∀ y, (materializeAll exts forced produced committed).1 y =
        if y ∈ exts then (materializeExt forced (produced y) (committed y)).1
        else committed y) ∧
      ((materializeAll exts forced produced committed).2 = true ↔
        ∃ x ∈ exts,
          (materializeExt forced (produced x) (committed x)).2.1 = true) := by
  intro exts
  induction exts with
  | nil =>
    intro _ committed
    simp [materializeAll]
  | cons ext rest ih =>
    intro hnd committed
    obtain ⟨hni, hndr⟩ := List.nodup_cons.mp hnd
    have ihg := ih hndr
      (fun x => if x = ext then
        (materializeExt forced (produced ext) (committed ext)).1
      else committed x)
    obtain ⟨ih1, ih2⟩ := ihg
    constructor
    · intro y
      by_cases hy : y = ext
      · subst hy
        have h1 := ih1 y
        rw [if_pos rfl] at h1
        have hyr : y ∉ rest := hni
        rw [if_neg hyr] at h1
        simp only [materializeAll, h1]
        rw [if_pos (List.mem_cons_self y rest)]
      · have h1 := ih1 y
        rw [if_neg hy] at h1
        simp only [materializeAll, h1]
        by_cases hyr : y ∈ rest
        · rw [if_pos hyr, if_pos (List.mem_cons_of_mem ext hyr)]
        · rw [if_neg hyr]
          rw [if_neg (by
            intro hmem
            rcases List.mem_cons.mp hmem with h | h
            · exact hy h
            · exact hyr h)]
    · simp only [materializeAll, Bool.or_eq_true, ih2]
      constructor
      · rintro (h | ⟨x, hx, hsk⟩)
        · exact ⟨ext, List.mem_cons_self ext rest, h⟩
        · refine ⟨x, List.mem_cons_of_mem ext hx, ?_⟩
          have hne : x ≠ ext := fun he => hni (he ▸ hx)
          rwa [if_neg hne] at hsk
      · rintro ⟨x, hx, hsk⟩
        rcases List.mem_cons.mp hx with rfl | hxr
        · exact Or.inl hsk
        · refine Or.inr ⟨x, hxr, ?_⟩
          have hne : x ≠ ext := fun he => hni (he ▸ hxr)
          rwa [if_neg hne]

/-- Environment of the C8 counterexample: a manual testcase with no
solution or visualizer. -/
def e8 : TcEnv :=
  { manual := true, source := "generators/m.in", sourceCtime := 0,
    generatorCmd := "", seed := 0, generatorTs := 0, solutionCmd := none,
    solutionTs := 0, visualizerCmd := none, visualizerTs := 0 }

/-- State of the C8 counterexample: the committed tree holds a matching
`.in` and a stale `.ans` whose artifact is no longer produced; no record. -/
def st8 : TcState :=
  { committed := fun x =>
      if x = ".ans" then some "w" else if x = ".in" then some "v" else none,
    meta := none }

/-- Artifacts of the C8 counterexample: only `.in` is produced. -/
def produced8 : String → Option String :=
  fun x => if x = ".in" then some "v" else none

/-- C8, counterexample.  A file skipped because its produced artifact is
missing (stale target, no `-f`) does *not* set the `skipped` flag in the
source, so the cache record *is* rewritten: with `.in` identical and `.ans`
stale, `meta_.yaml` is rewritten to the fresh record, contradicting the
claim that any conflict-skip leaves the record unwritten. -/
theorem c8_counterexample :
    ¬ (∀ (exts : List String) (e : TcEnv) (produced : String → Option String)
        (now : Nat) (st : TcState), up_to_date e st.meta = false →
        ((∀ x, (differConflict produced st.committed x ∨
            (produced x = none ∧ st.committed x ≠ none)) →
          (testcaseGenerate exts e produced true false now st).2.committed x =
            st.committed x) ∧
        (testcaseGenerate exts e produced true false now st).1 ≠ .failed ∧
        ((∃ x ∈ exts, differConflict produced st.committed x ∨
            (produced x = none ∧ st.committed x ≠ none)) →
          (testcaseGenerate exts e produced true false now st).2.meta ≠
            some (cacheData e, now)))) := by
  intro hcl
  have h := hcl [".in", ".ans"] e8 produced8 3 st8 (by decide)
  refine h.2.2 ⟨".ans", by decide, Or.inr ⟨by decide, by decide⟩⟩ ?_
  decide

/-- C8, amended.  During materialization without `-f`: differing targets and
targets whose artifact is missing are both left unchanged and the task does
not fail; a differing-content skip suppresses the record rewrite (the purge
removes the record, so the conflict is re-detected next run), but a skipped
removal of a stale target alone does *not* suppress it — the record is then
rewritten. -/
theorem c8_conflict_handling (exts : List String) (hnd : exts.Nodup)
    (e : TcEnv) (produced : String → Option String) (now : Nat)
    (st : TcState) (hu : up_to_date e st.meta = false) :
    (∀ x, (differConflict produced st.committed x ∨
        (produced x = none ∧ st.committed x ≠ none)) →
      (testcaseGenerate exts e produced true false now st).2.committed x =
        st.committed x) ∧
    (testcaseGenerate exts e produced true false now st).1 ≠ .failed ∧
    ((∃ x ∈ exts, differConflict produced st.committed x) →
      (testcaseGenerate exts e produced true false now st).2.meta = none ∧
      up_to_date e
        (testcaseGenerate exts e produced true false now st).2.meta = false) ∧
    ((∀ x ∈ exts, ¬ differConflict produced st.committed x) →
      (testcaseGenerate exts e produced true false now st).2.meta =
        some (cacheData e, now)) := by
  obtain ⟨hmap, hflag⟩ :=
    materializeAll_spec false produced exts hnd st.committed
  simp only [testcaseGenerate, hu, Bool.false_eq_true, if_false,
    Bool.not_true, if_true]
  refine ⟨?_, ?_, ?_, ?_⟩
  · intro x hx
    rw [hmap x]
    by_cases hmem : x ∈ exts
    · rw [if_pos hmem]
      rcases hx with ⟨s, t, hs, ht, hne⟩ | ⟨hs, ht⟩
      · rw [hs, ht] at *
        simp [materializeExt, hne]
      · rw [hs]
        cases hc : st.committed x with
        | none => simp [materializeExt]
        | some t => simp [materializeExt]
    · rw [if_neg hmem]
  · simp
  · intro hex
    have : (materializeAll exts false produced st.committed).2 = true := by
      rw [hflag]
      obtain ⟨x, hx, hc⟩ := hex
      exact ⟨x, hx, (materializeExt_skip_iff produced st.committed x).mpr hc⟩
    simp [this, up_to_date]
  · intro hall
    have : (materializeAll exts false produced st.committed).2 = false := by
      rw [Bool.eq_false_iff]
      intro htrue
      obtain ⟨x, hx, hsk⟩ := hflag.mp htrue
      exact hall x hx ((materializeExt_skip_iff produced st.committed x).mp hsk)
    simp [this]

/-- Witness for C8 at the concrete conflict state: the stale `.ans` target
is left untouched and the task does not fail. -/
theorem c8_conflict_handling_witness :
    up_to_date e8 st8.meta = false ∧
    (testcaseGenerate [".in", ".ans"] e8 produced8 true false 3 st8).2.committed
      ".ans" = st8.committed ".ans" ∧
    (testcaseGenerate [".in", ".ans"] e8 produced8 true false 3 st8).1 ≠
      .failed :=
  ⟨by decide,
   (c8_conflict_handling [".in", ".ans"] (by decide) e8 produced8 3 st8
      (by decide)).1 ".ans" (Or.inr ⟨by decide, by decide⟩),
   (c8_conflict_handling [".in", ".ans"] (by decide) e8 produced8 3 st8
      (by decide)).2.1⟩

/-- Environment of the C7 counterexample: a manual testcase, no solution,
no visualizer. -/
def e7 : TcEnv :=
  { manual := true, source := "generators/x.in", sourceCtime := 0,
    generatorCmd := "", seed := 0, generatorTs := 0, solutionCmd := none,
    solutionTs := 0, visualizerCmd := none, visualizerTs := 0 }

/-- State of the C7 counterexample: a committed `.in` that differs from the
produced artifact, and no record. -/
def st7 : TcState :=
  { committed := fun x => if x = ".in" then some "old" else none,
    meta := none }

/-- Artifacts of the C7 scenario. -/
def produced7 : String → Option String :=
  fun x => if x = ".in" then some "new" else none

/-- Empty starting state for the C7 witness. -/
def st7b : TcState := { committed := fun _ => none, meta := none }

/-- C7, counterexample.  With an unresolved materialization conflict (the
committed `.in` differs from the produced artifact and `-f` is off), the
first run leaves no cache record, so the second run — with no change to
tree, programs or salts — regenerates instead of taking the up-to-date
path: the run is not idempotent in the claimed unconditional sense. -/
theorem c7_counterexample :
    ¬ (∀ (exts : List String) (e : TcEnv) (produced : String → Option String)
        (forced : Bool) (now1 now2 : Nat) (st : TcState),
        (∀ ts ∈ contributors e, ts ≤ now1) →
        (testcaseGenerate exts e produced true forced now2
            (testcaseGenerate exts e produced true forced now1 st).2).1 =
          .upToDate ∧
        (∀ x, (testcaseGenerate exts e produced true forced now2
            (testcaseGenerate exts e produced true forced now1 st).2).2.committed
            x =
          (testcaseGenerate exts e produced true forced now1 st).2.committed x)) := by
  intro hcl
  have h := hcl [".in"] e7 produced7 false 0 1 st7 (by decide)
  exact absurd h.1 (by decide)

/-- C7, amended.  If the first run skips nothing (it is either already up
to date or materializes every artifact without conflict) and the record is
written no earlier than every contributing timestamp, then a second run
with unchanged environment and artifacts takes the up-to-date path and
leaves the state — in particular every committed file — exactly as the
first run left it. -/
theorem c7_idempotent (exts : List String) (e : TcEnv)
    (produced : String → Option String) (forced : Bool) (now1 now2 : Nat)
    (st : TcState) (hts : ∀ ts ∈ contributors e, ts ≤ now1)
    (hnoskip : (testcaseGenerate exts e produced true forced now1 st).1 =
        .upToDate ∨
      (testcaseGenerate exts e produced true forced now1 st).1 =
        .materialized false) :
    testcaseGenerate exts e produced true forced now2
      (testcaseGenerate exts e produced true forced now1 st).2 =
      (.upToDate, (testcaseGenerate exts e produced true forced now1 st).2) := by
  cases hu : up_to_date e st.meta with
  | true =>
    have h1 : testcaseGenerate exts e produced true forced now1 st =
        (.upToDate, st) := by
      simp [testcaseGenerate, hu]
    rw [h1]
    simp [testcaseGenerate, hu]
  | false =>
    have h1 : testcaseGenerate exts e produced true forced now1 st =
        (.materialized (materializeAll exts forced produced st.committed).2,
         { committed := (materializeAll exts forced produced st.committed).1,
           meta := if (materializeAll exts forced produced st.committed).2
             then none else some (cacheData e, now1) }) := by
      simp [testcaseGenerate, hu]
    have hskf : (materializeAll exts forced produced st.committed).2 = false := by
      rcases hnoskip with hup | hmat
      · rw [h1] at hup
        exact absurd hup (by simp)
      · rw [h1] at hmat
        simpa using hmat
    rw [h1, hskf]
    have hup2 : up_to_date e (some (cacheData e, now1)) = true := by
      simp only [up_to_date, Bool.and_eq_true, decide_eq_true_eq]
      exact ⟨(foldl_max_le_iff (contributors e) 0 now1).mpr
        ⟨Nat.zero_le _, hts⟩, trivial⟩
    simp [testcaseGenerate, hup2]

/-- Witness for C7: a clean first run over an empty tree is up to date on
the second run. -/
theorem c7_idempotent_witness :
    (∀ ts ∈ contributors e7, ts ≤ 0) ∧
    testcaseGenerate [".in"] e7 produced7 true false 1
      (testcaseGenerate [".in"] e7 produced7 true false 0 st7b).2 =
      (.upToDate, (testcaseGenerate [".in"] e7 produced7 true false 0 st7b).2) :=
  ⟨by decide,
   c7_idempotent [".in"] e7 produced7 false 0 1 st7b (by decide)
     (Or.inr (by decide))⟩

/-! ## Declarative tree parsing (`GeneratorConfig.__init__`)

The yaml value as loaded by `yamllib.load(..., Loader=yamllib.BaseLoader)`:
every scalar is a string (BaseLoader builds no ints or nulls), mappings keep
string keys, sequences are lists.  Root-level bookkeeping that does not
shape the rule tree (the `generators` and `parallel` keys, `testdata.yaml`
payloads, the inheritable config keys) is outside the scope of the parsing
claims and is not represented. -/
inductive Yaml where
  | str : String → Yaml
  | map : List (String × Yaml) → Yaml
  | list : List Yaml → Yaml

/-- Python `dict` lookup on the modelled mapping. -/
def lookupY (key : String) : List (String × Yaml) → Option Yaml
  | [] => none
  | (k, v) :: es => if k = key then some v else lookupY key es

/-- `is_testcase`: the empty string, any other string, or a dict with an
`input` key. -/
def is_testcase : Yaml → Bool
  | .str _ => true
  | .map es => (lookupY "input" es).isSome
  | .list _ => false

/-- `is_directory`: a dict whose `type` key is the string `directory`. -/
def is_directory : Yaml → Bool
  | .map es =>
    match lookupY "type" es with
    | some (.str s) => s = "directory"
    | _ => false
  | _ => false

/-- Interior character class of the file-name pattern. -/
def fnInner (c : Char) : Bool :=
  c.isAlphanum || c == '_' || c == '.' || c == '-'

/-- Modelled from the spec: `COMPILED_FILE_NAME_REGEX` lives in `config.py`,
which is not among the embedded sources, and the spec does not spell it
out; it is modelled as the BAPCtools file-name pattern
`[a-zA-Z0-9][a-zA-Z0-9_.-]*[a-zA-Z0-9]` — at least two characters,
alphanumeric at both ends, alphanumerics, `_`, `.` and `-` inside. -/
def fileNameOk (s : String) : Bool :=
  match s.data with
  | [] => false
  | [_] => false
  | c :: cs =>
    c.isAlphanum && cs.dropLast.all fnInner &&
      (match cs.getLast? with
       | some d => d.isAlphanum
       | none => false)

/-- Character-level `str.startswith("/")`. -/
def headSlash (s : String) : Bool :=
  match s.data with
  | c :: _ => c = '/'
  | [] => false

/-- Character-level `str.endswith(suffix)`. -/
def strEndsWith (s suffix : String) : Bool :=
  suffix.data.isSuffixOf s.data

/-- `resolve_path(path, allow_absolute=False)`: asserts the path is not
absolute and resolves it relative to `generators/`. -/
def resolve_path (path : String) : Except Unit String :=
  if headSlash path then .error ()
  else .ok ("generators/" ++ path)

/-- Split a path string on `/`.  (`Path(...)` segments; empty segments are
dropped as `pathlib` does.) -/
def splitSegsAux : List Char → List Char → List String
  | [], acc => [⟨acc.reverse⟩]
  | c :: cs, acc =>
    if c = '/' then ⟨acc.reverse⟩ :: splitSegsAux cs []
    else splitSegsAux cs (c :: acc)

/-- Path string to segment list. -/
def pathSegs (s : String) : List String :=
  (splitSegsAux s.data []).filter (fun seg => seg ≠ "")

/-- Join segments back into a path string. -/
def joinPath (segs : List String) : String :=
  String.intercalate "/" segs

/-- `parent.path / name` — `pathlib` drops an empty final segment. -/
def pathExtend (ppath : List String) (name : String) : List String :=
  if name = "" then ppath else ppath ++ [name]

/-- A parsed rule: either a testcase leaf (manual flag plus its source path
or generator command string) or a directory node. -/
inductive PRule where
  | tc (name : String) (path : List String) (manual : Bool) (input : String)
  | dir (name : String) (path : List String) (numbered : Bool)
      (includes : List (List String)) (children : List PRule)

/-- Path of a parsed rule relative to `data/`. -/
def rulePath : PRule → List String
  | .tc _ p _ _ => p
  | .dir _ p _ _ _ => p

mutual
/-- All node paths of a parsed rule tree, in walk (pre-)order. -/
def rulePaths : PRule → List (List String)
  | .tc _ p _ _ => [p]
  | .dir _ p _ _ children => p :: rulePathsList children
/-- All node paths of a forest, in walk order. -/
def rulePathsList : List PRule → List (List String)
  | [] => []
  | r :: rs => rulePaths r ++ rulePathsList rs
end

mutual
/-- The testcase leaves of a parsed rule tree, in walk order. -/
def tcPaths : PRule → List (List String)
  | .tc _ p _ _ => [p]
  | .dir _ _ _ _ children => tcPathsList children
/-- The testcase leaves of a forest, in walk order. -/
def tcPathsList : List PRule → List (List String)
  | [] => []
  | r :: rs => tcPaths r ++ tcPathsList rs
end

/-- Parser state: the global `next_number` counter and the global
`known_cases` set (modelled as the list of inserted paths; the source uses
a Python `set`, and only membership is ever queried). -/
structure PState where
  nextNumber : Nat
  known : List (List String)

/-- `TestcaseRule.__init__` (the parts that shape the rule): name pattern
check on `name + '.in'`, the three shorthand forms (empty string: manual,
self-referencing `data/...` path; a string ending in `.in`: manual path
relative to `generators/`; any other string: generator command), and the
dict form with an `input` key (always treated as a generator command; a
non-string `input` fails). -/
def mkTestcase (name : String) (y : Yaml) (ppath : List String) :
    Except Unit PRule :=
  if ¬ fileNameOk (name ++ ".in") then .error ()
  else
    match y with
    | .str s =>
      if s = "" then
        .ok (.tc name (pathExtend ppath name) true
          ("data/" ++ joinPath (ppath ++ [name ++ ".in"])))
      else if strEndsWith s ".in" then
        match resolve_path s with
        | .error _ => .error ()
        | .ok src => .ok (.tc name (pathExtend ppath name) true src)
      else .ok (.tc name (pathExtend ppath name) false s)
    | .map es =>
      match lookupY "input" es with
      | some (.str s) => .ok (.tc name (pathExtend ppath name) false s)
      | _ => .error ()
    | .list _ => .error ()

/-- The `data` checks of `Directory.__init__`: absent data means no
children; a scalar fails the isinstance assert (BaseLoader turns empty
values into strings); a nonempty dict is wrapped into a one-element list
and requires a non-numbered parent; a nonempty list switches the directory
to numbered mode. -/
def dirData (es : List (String × Yaml)) (parentNumbered : Bool) :
    Except Unit (Bool × List Yaml) :=
  match lookupY "data" es with
  | none => .ok (false, [])
  | some (.str _) => .error ()
  | some (.map des) =>
    if des.length = 0 then .ok (false, [])
    else if parentNumbered then .error ()
    else .ok (false, [.map des])
  | some (.list l) =>
    if l.length = 0 then .ok (false, [])
    else .ok (true, l)

/-- The `include` key: absent means none; anything but a list of strings
fails; each entry must not be absolute and must already be known, and the
included case's name is registered under the including directory. -/
def processIncludes (incs : List Yaml) (dpath : List String) (st : PState) :
    Except Unit (List (List String) × PState) :=
  match incs with
  | [] => .ok ([], st)
  | .str inc :: rest =>
    if headSlash inc then .error ()
    else
      let ip := pathSegs inc
      if ip ∈ st.known then
        let extra := match ip.getLast? with
          | some l => dpath ++ [l]
          | none => dpath
        match processIncludes rest dpath { st with known := extra :: st.known } with
        | .error _ => .error ()
        | .ok (ips, st') => .ok (ip :: ips, st')
      else .error ()
  | _ :: _ => .error ()

/-- `sorted(dictionary.items())`, ordering the children of one declaration
dict by key (keys are unique in a yaml mapping, so the value part of
Python's tuple comparison never kicks in). -/
def sortEntries (es : List (String × Yaml)) : List (String × Yaml) :=
  List.insertionSort (fun a b => a.1 ≤ b.1) es

mutual
/-- The recursive `parse(name, yaml, parent)` of `GeneratorConfig.__init__`.
`fuel` bounds the recursion depth (any value at least the tree depth gives
the source behaviour; the top-level entry point passes a sufficient bound).
A testcase or directory path colliding with a known path is a fatal parse
error, directories register includes and recurse into their `data`
children, and in a numbered directory each child dict consumes one global
number, prefixed as `<n>-` to each of its keys. -/
def parseNode (fuel : Nat) (name : String) (y : Yaml) (ppath : List String)
    (pnumbered : Bool) (st : PState) : Except Unit (PRule × PState) :=
  match fuel with
  | 0 => .error ()
  | fuel + 1 =>
    if is_testcase y then
      match mkTestcase name y ppath with
      | .error _ => .error ()
      | .ok t =>
        if rulePath t ∈ st.known then .error ()
        else .ok (t, { st with known := rulePath t :: st.known })
    else if is_directory y then
      match y with
      | .map es =>
        if name ≠ "" ∧ ¬ fileNameOk name then .error ()
        else
          let dpath := pathExtend ppath name
          match dirData es pnumbered with
          | .error _ => .error ()
          | .ok (numbered, ds) =>
            if dpath ∈ st.known then .error ()
            else
              let st1 : PState := { st with known := dpath :: st.known }
              match (match lookupY "include" es with
                     | none => Except.ok []
                     | some (.list l) => Except.ok l
                     | some _ => Except.error ()) with
              | .error _ => .error ()
              | .ok incYs =>
                match processIncludes incYs dpath st1 with
                | .error _ => .error ()
                | .ok (incs, st2) =>
                  match parseData fuel ds numbered dpath st2 with
                  | .error _ => .error ()
                  | .ok (children, st3) =>
                    .ok (.dir name dpath numbered incs children, st3)
      | _ => .error ()
    else .error ()

/-- The `for dictionary in yaml['data']` loop: each element must be a dict;
in a numbered directory it consumes one global number as the prefix for all
of its keys. -/
def parseData (fuel : Nat) (ds : List Yaml) (numbered : Bool)
    (dpath : List String) (st : PState) :
    Except Unit (List PRule × PState) :=
  match fuel with
  | 0 => .error ()
  | fuel + 1 =>
    match ds with
    | [] => .ok ([], st)
    | .map des :: rest =>
      let pn :=
        if numbered then
          (toString st.nextNumber ++ "-",
           { st with nextNumber := st.nextNumber + 1 })
        else ("", st)
      match parseEntries fuel (sortEntries des) pn.1 dpath numbered pn.2 with
      | .error _ => .error ()
      | .ok (rs1, st2) =>
        match parseData fuel rest numbered dpath st2 with
        | .error _ => .error ()
        | .ok (rs2, st3) => .ok (rs1 ++ rs2, st3)
    | _ :: _ => .error ()

/-- The `for child_name, child_yaml in sorted(dictionary.items())` loop. -/
def parseEntries (fuel : Nat) (entries : List (String × Yaml)) (pfx : String)
    (dpath : List String) (pnumbered : Bool) (st : PState) :
    Except Unit (List PRule × PState) :=
  match fuel with
  | 0 => .error ()
  | fuel + 1 =>
    match entries with
    | [] => .ok ([], st)
    | (k, v) :: rest =>
      match parseNode fuel (pfx ++ k) v dpath pnumbered st with
      | .error _ => .error ()
      | .ok (r, st1) =>
        match parseEntries fuel rest pfx dpath pnumbered st1 with
        | .error _ => .error ()
        | .ok (rs, st2) => .ok (r :: rs, st2)
end

mutual
/-- Depth bound used to start the fuel: one unit per constructor. -/
def yamlDepth : Yaml → Nat
  | .str _ => 1
  | .map es => 1 + yamlDepthEntries es
  | .list l => 1 + yamlDepthList l
def yamlDepthList : List Yaml → Nat
  | [] => 0
  | y :: ys => max (yamlDepth y) (yamlDepthList ys)
def yamlDepthEntries : List (String × Yaml) → Nat
  | [] => 0
  | (_, y) :: es => max (yamlDepth y) (yamlDepthEntries es)
end

/-- `GeneratorConfig.__init__`: the root yaml must be a dict; its `type`
key is forced to `directory` and it is parsed as the root directory with
empty name and path, below an implicit parent that is not numbered.
(The root-level `generators` and `parallel` keys configure later phases and
do not shape the tree.) -/
def parseConfig (y : Yaml) : Except Unit (PRule × PState) :=
  match y with
  | .map es =>
    parseNode (yamlDepth y + (yamlDepthEntries es + 4) * 4) ""
      (.map (("type", Yaml.str "directory") ::
        es.filter (fun kv => kv.1 ≠ "type")))
      [] false { nextNumber := 1, known := [] }
  | _ => .error ()

/-- Materialization target of a testcase's `.in` file:
`data/<path-to-parent>/<name>.in`. -/
def materializedIn (p : List String) : String :=
  "data/" ++ joinPath (match p.getLast? with
    | some n => p.dropLast ++ [n ++ ".in"]
    | none => p)

/-- The declarative tree of the C5 scenario, with the `secret` directory
declared (as generators.yaml requires) under the root `data` key. -/
def tree5 : Yaml :=
  .map [("data", .map [("secret",
    .map [("type", .str "directory"),
          ("data", .list [
            .map [("1", .str "gen.py 10")],
            .map [("2", .str "gen.py 20")]])])])]

/-- C5, counterexample.  The numbered form does not name the children
`secret/1` and `secret/2`: the source prepends `str(next_number) + '-'` to
each declared key (with a *global* counter), so the example yields
`secret/1-1` and `secret/2-2`. -/
theorem c5_counterexample :
    ¬ ((match parseConfig tree5 with
        | .ok (r, _) => tcPaths r
        | .error _ => []) = [["secret", "1"], ["secret", "2"]] ∧
      (match parseConfig tree5 with
        | .ok (r, _) => (tcPaths r).map materializedIn
        | .error _ => []) = ["data/secret/1.in", "data/secret/2.in"]) := by
  decide

/-- C5, amended.  Each entry of a numbered directory receives the prefix
`<n>-` where `n` is the 1-based global `next_number` counter advanced once
per entry in traversal order, prepended (with a dash) to the entry's own
key; the example tree yields exactly the testcases `secret/1-1` and
`secret/2-2`, materialized at `data/secret/1-1.in` and
`data/secret/2-2.in`. -/
theorem c5_numbered_prefixes :
    (parseConfig tree5).isOk = true ∧
    (match parseConfig tree5 with
      | .ok (r, _) => tcPaths r
      | .error _ => []) = [["secret", "1-1"], ["secret", "2-2"]] ∧
    (match parseConfig tree5 with
      | .ok (r, _) => (tcPaths r).map materializedIn
      | .error _ => []) = ["data/secret/1-1.in", "data/secret/2-2.in"] := by
  refine ⟨by decide, by decide, by decide⟩

/-! ## C6: global uniqueness of parsed paths -/

theorem rulePathsList_append (a b : List PRule) :
    rulePathsList (a ++ b) = rulePathsList a ++ rulePathsList b := by
  induction a with
  | nil => simp [rulePathsList]
  | cons r rs ih =>
    simp [rulePathsList, ih]

theorem mkTestcase_shape (name : String) (y : Yaml) (ppath : List String)
    (t : PRule) (h : mkTestcase name y ppath = .ok t) :
    rulePaths t = [rulePath t] := by
  unfold mkTestcase at h
  repeat' split at h
  all_goals cases h
  all_goals rfl

theorem processIncludes_mono :
    ∀ (incs : List Yaml) (dpath : List String) (st : PState)
      (ips : List (List String)) (st' : PState),
      processIncludes incs dpath st = .ok (ips, st') →
      ∀ q ∈ st.known, q ∈ st'.known := by
  intro incs
  induction incs with
  | nil =>
    intro dpath st ips st' h q hq
    simp only [processIncludes] at h
    cases h
    exact hq
  | cons i rest ih =>
    intro dpath st ips st' h q hq
    cases i with
    | str inc =>
      simp only [processIncludes] at h
      split at h
      · exact absurd h (by simp)
      · split at h
        · split at h
          · exact absurd h (by simp)
          · rename_i heq
            cases h
            refine ih _ _ _ _ heq q ?_
            exact List.mem_cons_of_mem _ hq
        · exact absurd h (by simp)
    | map es => exact absurd h (by simp [processIncludes])
    | list l => exact absurd h (by simp [processIncludes])

/-- Invariant threaded through the parser: the node paths produced by one
parsing step are pairwise distinct, fresh with respect to the incoming
`known_cases` set, all registered in the outgoing set, and the set only
grows. -/
def stInv (st st' : PState) (paths : List (List String)) : Prop :=
  paths.Nodup ∧ (∀ p ∈ paths, p ∉ st.known ∧ p ∈ st'.known) ∧
  (∀ q ∈ st.known, q ∈ st'.known)

theorem parse_inv : ∀ fuel : Nat,
    (∀ name y ppath pn st r st',
      parseNode fuel name y ppath pn st = .ok (r, st') →
      stInv st st' (rulePaths r)) ∧
    (∀ ds nb dpath st rs st',
      parseData fuel ds nb dpath st = .ok (rs, st') →
      stInv st st' (rulePathsList rs)) ∧
    (∀ entries pfx dpath pn st rs st',
      parseEntries fuel entries pfx dpath pn st = .ok (rs, st') →
      stInv st st' (rulePathsList rs)) := by
  intro fuel
  induction fuel with
  | zero =>
    refine ⟨?_, ?_, ?_⟩
    · intro name y ppath pn st r st' h
      exact absurd h (by simp [parseNode])
    · intro ds nb dpath st rs st' h
      exact absurd h (by simp [parseData])
    · intro entries pfx dpath pn st rs st' h
      exact absurd h (by simp [parseEntries])
  | succ fuel ih =>
    obtain ⟨ihN, ihD, ihE⟩ := ih
    refine ⟨?_, ?_, ?_⟩
    · -- parseNode
      intro name y ppath pn st r st' h
      simp only [parseNode] at h
      split at h
      · -- testcase branch
        split at h
        · exact absurd h (by simp)
        · rename_i t heq
          split at h
          · exact absurd h (by simp)
          · rename_i hnotin
            cases h
            rw [mkTestcase_shape _ _ _ _ heq]
            refine ⟨List.nodup_singleton _, ?_, ?_⟩
            · intro p hp
              rw [List.mem_singleton] at hp
              subst hp
              exact ⟨hnotin, List.mem_cons_self _ _⟩
            · intro q hq
              exact List.mem_cons_of_mem _ hq
      · -- not a testcase
        split at h
        · -- directory branch
          split at h
          · -- y is a map
            split at h
            · exact absurd h (by simp)
            · split at h
              · exact absurd h (by simp)
              · rename_i numbered ds hdd
                split at h
                · exact absurd h (by simp)
                · rename_i hnin
                  split at h
                  · exact absurd h (by simp)
                  · rename_i incYs hincY
                    split at h
                    · exact absurd h (by simp)
                    · rename_i incs stB hInc
                      split at h
                      · exact absurd h (by simp)
                      · rename_i children stC hData
                        cases h
                        obtain ⟨hnd, hfresh, hmono⟩ :=
                          ihD _ _ _ _ _ _ hData
                        have hmono1 : ∀ q ∈ st.known, q ∈ stB.known := by
                          intro q hq
                          exact processIncludes_mono _ _ _ _ _ hInc q
                            (List.mem_cons_of_mem _ hq)
                        have hdp2 : pathExtend ppath name ∈ stB.known :=
                          processIncludes_mono _ _ _ _ _ hInc _
                            (List.mem_cons_self _ _)
                        simp only [rulePaths]
                        refine ⟨?_, ?_, ?_⟩
                        · refine List.nodup_cons.mpr ⟨?_, hnd⟩
                          intro hmem
                          exact (hfresh _ hmem).1 hdp2
                        · intro p hp
                          rcases List.mem_cons.mp hp with rfl | hp
                          · exact ⟨hnin, hmono _ hdp2⟩
                          · obtain ⟨hnp, hip⟩ := hfresh p hp
                            exact ⟨fun hmem => hnp (hmono1 p hmem), hip⟩
                        · intro q hq
                          exact hmono q (hmono1 q hq)
          · exact absurd h (by simp)
        · exact absurd h (by simp)
    · -- parseData
      intro ds nb dpath st rs st' h
      simp only [parseData] at h
      split at h
      · cases h
        exact ⟨List.nodup_nil, by simp [rulePathsList], fun q hq => hq⟩
      · rename_i des rest
        split at h
        · exact absurd h (by simp)
        · rename_i rs1 stB hE
          split at h
          · exact absurd h (by simp)
          · rename_i rs2 stC hD
            cases h
            obtain ⟨hnd1, hfresh1, hmono1⟩ := ihE _ _ _ _ _ _ _ hE
            obtain ⟨hnd2, hfresh2, hmono2⟩ := ihD _ _ _ _ _ _ hD
            have hknown : (if nb = true then
                (toString st.nextNumber ++ "-",
                 { st with nextNumber := st.nextNumber + 1 })
              else ("", st)).2.known = st.known := by
              cases nb <;> rfl
            rw [hknown] at hfresh1 hmono1
            rw [rulePathsList_append]
            refine ⟨?_, ?_, ?_⟩
            · refine List.Nodup.append hnd1 hnd2 ?_
              intro p hp1 hp2
              exact (hfresh2 p hp2).1 (hfresh1 p hp1).2
            · intro p hp
              rcases List.mem_append.mp hp with hp | hp
              · exact ⟨(hfresh1 p hp).1, hmono2 _ (hfresh1 p hp).2⟩
              · exact ⟨fun hmem => (hfresh2 p hp).1 (hmono1 p hmem),
                  (hfresh2 p hp).2⟩
            · intro q hq
              exact hmono2 q (hmono1 q hq)
      · exact absurd h (by simp)
    · -- parseEntries
      intro entries pfx dpath pn st rs st' h
      simp only [parseEntries] at h
      split at h
      · cases h
        exact ⟨List.nodup_nil, by simp [rulePathsList], fun q hq => hq⟩
      · rename_i k v rest
        split at h
        · exact absurd h (by simp)
        · rename_i r1 st1 hN
          split at h
          · exact absurd h (by simp)
          · rename_i rs2 stB hR
            cases h
            obtain ⟨hnd1, hfresh1, hmono1⟩ := ihN _ _ _ _ _ _ _ hN
            obtain ⟨hnd2, hfresh2, hmono2⟩ := ihE _ _ _ _ _ _ _ hR
            simp only [rulePathsList]
            refine ⟨?_, ?_, ?_⟩
            · refine List.Nodup.append hnd1 hnd2 ?_
              intro p hp1 hp2
              exact (hfresh2 p hp2).1 (hfresh1 p hp1).2
            · intro p hp
              rcases List.mem_append.mp hp with hp | hp
              · exact ⟨(hfresh1 p hp).1, hmono2 _ (hfresh1 p hp).2⟩
              · exact ⟨fun hmem => (hfresh2 p hp).1 (hmono1 p hmem),
                  (hfresh2 p hp).2⟩
            · intro q hq
              exact hmono2 q (hmono1 q hq)

/-- C6.  A successful parse yields pairwise distinct node paths across the
whole tree: every testcase and directory path is checked against and then
inserted into the global `known_cases` set, so any tree in which two nodes
resolve to the same path fails the parse (which happens in
`GeneratorConfig.__init__`, before the build and run phases are entered). -/
theorem c6_unique_paths (y : Yaml) (r : PRule) (st : PState)
    (h : parseConfig y = .ok (r, st)) : (rulePaths r).Nodup := by
  cases y with
  | map es =>
    simp only [parseConfig] at h
    exact ((parse_inv _).1 _ _ _ _ _ _ _ h).1
  | str s => exact absurd h (by simp [parseConfig])
  | list l => exact absurd h (by simp [parseConfig])

/-- A small well-formed tree for the C6 witness. -/
def tree6 : Yaml :=
  .map [("data", .map [("sample",
    .map [("type", .str "directory"), ("data", .map [("1", .str "")])])])]

/-- Witness for C6: the sample tree parses and its node paths are pairwise
distinct. -/
theorem c6_unique_paths_witness :
    ∃ r st, parseConfig tree6 = .ok (r, st) ∧ (rulePaths r).Nodup := by
  have hok : (parseConfig tree6).isOk = true := by decide
  cases hcase : parseConfig tree6 with
  | error e =>
    rw [hcase] at hok
    exact absurd hok (by simp [Except.isOk, Except.toBool])
  | ok p =>
    exact ⟨p.1, p.2, rfl,
      c6_unique_paths tree6 p.1 p.2 (hcase.trans rfl)⟩

/-! ## C1: run-phase scheduling (`GeneratorConfig.run`, `Directory.walk`) -/

/-- The rule tree as seen by the run phase: testcase leaves and directory
nodes (the per-node configuration plays no role in scheduling). -/
inductive GTree where
  | tc (name : String)
  | dir (name : String) (children : List GTree)

/-- A scheduled task: one testcase generation (enqueued to the worker
pool) or one directory generation (executed by the coordinator after
`q.join()`). -/
inductive GTask where
  | tcTask (path : List String)
  | dirTask (path : List String)
deriving DecidableEq, Repr

/-- The path a task works on. -/
def taskPath : GTask → List String
  | .tcTask p => p
  | .dirTask p => p

mutual
/-- `Directory.walk(testcase_f, dir_f)` with the default `dir_last=False`,
exactly as the run phase uses it: a child directory's own task is emitted
*before* the tasks of everything beneath it. -/
def walkEvents (p : List String) : GTree → List GTask
  | .tc n => [.tcTask (p ++ [n])]
  | .dir n cs => .dirTask (p ++ [n]) :: walkEventsList (p ++ [n]) cs
/-- `walk` over `self.data`. -/
def walkEventsList (p : List String) : List GTree → List GTask
  | [] => []
  | c :: cs => walkEvents p c ++ walkEventsList p cs
end

/-- The task sequence of `GeneratorConfig.run`: `self.root_dir.walk(...)`
iterates the root's children; no task is emitted for the root itself. -/
def runEvents : GTree → List GTask
  | .dir _ cs => walkEventsList [] cs
  | .tc _ => []

/-- `D` is a proper ancestor path of `t` (strictly beneath). -/
def underPath (D t : List String) : Prop :=
  t.take D.length = D ∧ D.length < t.length

instance (D t : List String) : Decidable (underPath D t) := by
  unfold underPath
  infer_instance

/-- An execution of the parallel run loop: coordinator dispatch time and
completion time of each event index. -/
structure Sched where
  dispatch : Nat → Nat
  complete : Nat → Nat

/-- The constraints any execution of `GeneratorConfig.run` satisfies with
jobs > 1: the coordinator walks the events in order (`dispatch` strictly
increases along the list); a task cannot complete before it is dispatched
(a testcase is enqueued at its dispatch point); before running a directory
task the coordinator performs the `q.join()` barrier, so every testcase
enqueued earlier has completed; and a directory task runs synchronously on
the coordinator at its dispatch point. -/
def validSched (evts : List GTask) (s : Sched) : Prop :=
  (∀ i j, i < j → j < evts.length → s.dispatch i < s.dispatch j) ∧
  (∀ i, i < evts.length → s.dispatch i ≤ s.complete i) ∧
  (∀ i j D t, evts.get? i = some (.dirTask D) →
    evts.get? j = some (.tcTask t) → j < i → s.complete j ≤ s.dispatch i) ∧
  (∀ i D, evts.get? i = some (.dirTask D) → s.complete i = s.dispatch i)

/-- The identity timeline (event `i` dispatched and completed at time `i`)
satisfies every constraint. -/
theorem idSched_valid (evts : List GTask) : validSched evts ⟨id, id⟩ := by
  refine ⟨?_, ?_, ?_, ?_⟩
  · intro i j hij _
    exact hij
  · intro i _
    exact le_refl i
  · intro i j D t _ _ hji
    exact le_of_lt hji
  · intro i D _
    rfl

/-- The concrete tree of the C1 counterexample: one directory `secret`
holding one testcase `1`. -/
def tree1 : GTree := .dir "" [.dir "secret" [.tc "1"]]

/-- C1, counterexample.  In the run phase the walk emits a directory's own
task *before* its descendants are even enqueued, so under the (satisfiable)
execution constraints the finalization of `secret` starts at time 0 while
the testcase `secret/1` completes no earlier than time 1: the claimed
happens-after is violated. -/
theorem c1_counterexample :
    ¬ (∀ (r : GTree) (s : Sched), validSched (runEvents r) s →
        ∀ i j D t, (runEvents r).get? i = some (.dirTask D) →
          (runEvents r).get? j = some (.tcTask t) → underPath D t →
          s.complete j ≤ s.dispatch i) := by
  intro hcl
  have h := hcl tree1 ⟨id, id⟩ (idSched_valid _) 0 1 ["secret"]
    ["secret", "1"] (by decide) (by decide) (by decide)
  simp only [Sched.dispatch, Sched.complete, id] at h
  omega

theorem underPath_trans {a b c : List String}
    (hab : underPath a b) (hbc : underPath b c) : underPath a c := by
  obtain ⟨hab1, hab2⟩ := hab
  obtain ⟨hbc1, hbc2⟩ := hbc
  refine ⟨?_, by omega⟩
  calc c.take a.length = (c.take b.length).take a.length := by
        rw [List.take_take, min_eq_left (le_of_lt hab2)]
    _ = b.take a.length := by rw [hbc1]
    _ = a := hab1

theorem underPath_extend (p : List String) (n : String) :
    underPath p (p ++ [n]) := by
  refine ⟨List.take_left p [n], by simp⟩

mutual
/-- Every event of `walk` under prefix `p` works strictly beneath `p`. -/
theorem walkEvents_under (p : List String) (r : GTree) :
    ∀ ev ∈ walkEvents p r, underPath p (taskPath ev) := by
  cases r with
  | tc n =>
    intro ev hev
    rw [walkEvents, List.mem_singleton] at hev
    subst hev
    exact underPath_extend p n
  | dir n cs =>
    intro ev hev
    rw [walkEvents, List.mem_cons] at hev
    rcases hev with rfl | hev
    · exact underPath_extend p n
    · exact underPath_trans (underPath_extend p n)
        (walkEventsList_under (p ++ [n]) cs ev hev)

theorem walkEventsList_under (p : List String) (cs : List GTree) :
    ∀ ev ∈ walkEventsList p cs, underPath p (taskPath ev) := by
  cases cs with
  | nil =>
    intro ev hev
    rw [walkEventsList] at hev
    exact absurd hev (List.not_mem_nil ev)
  | cons c cs =>
    intro ev hev
    rw [walkEventsList, List.mem_append] at hev
    rcases hev with hev | hev
    · exact walkEvents_under p c ev hev
    · exact walkEventsList_under p cs ev hev
end

mutual
/-- Every strict intermediate ancestor of a testcase event inside one
subtree walk appears as a directory event of the same walk: the walk emits
a `dirTask` for each directory on the way down. -/
theorem walk_anc (p : List String) (r : GTree) :
    ∀ t, GTask.tcTask t ∈ walkEvents p r → ∀ q, underPath p q →
      underPath q t → GTask.dirTask q ∈ walkEvents p r := by
  cases r with
  | tc n =>
    intro t ht q hpq hqt
    rw [walkEvents, List.mem_singleton] at ht
    cases ht
    exfalso
    obtain ⟨-, h1⟩ := hpq
    obtain ⟨-, h2⟩ := hqt
    simp only [List.length_append, List.length_cons, List.length_nil] at h2
    omega
  | dir n cs =>
    intro t ht q hpq hqt
    rw [walkEvents, List.mem_cons] at ht
    rcases ht with hht | ht
    · exact absurd hht (by simp)
    · have htu : underPath (p ++ [n]) t :=
        walkEventsList_under (p ++ [n]) cs _ ht
      rw [walkEvents]
      by_cases hq : q.length = p.length + 1
      · have hqeq : q = p ++ [n] := by
          have h1 : t.take q.length = q := hqt.1
          have h2 : t.take (p ++ [n]).length = p ++ [n] := htu.1
          rw [List.length_append, List.length_cons, List.length_nil] at h2
          rw [hq] at h1
          rw [← h1, ← h2]
        rw [hqeq]
        exact List.mem_cons_self _ _
      · have hlen : (p ++ [n]).length < q.length := by
          simp only [List.length_append, List.length_cons, List.length_nil]
          have := hpq.2
          omega
        have hpnq : underPath (p ++ [n]) q := by
          refine ⟨?_, hlen⟩
          have h2 : t.take (p ++ [n]).length = p ++ [n] := htu.1
          calc q.take (p ++ [n]).length
              = (t.take q.length).take (p ++ [n]).length := by rw [hqt.1]
            _ = t.take (p ++ [n]).length := by
                rw [List.take_take, min_eq_left (le_of_lt hlen)]
            _ = p ++ [n] := h2
        exact List.mem_cons_of_mem _
          (walkEventsList_anc (p ++ [n]) cs t ht q hpnq hqt)

theorem walkEventsList_anc (p : List String) (cs : List GTree) :
    ∀ t, GTask.tcTask t ∈ walkEventsList p cs → ∀ q, underPath p q →
      underPath q t → GTask.dirTask q ∈ walkEventsList p cs := by
  cases cs with
  | nil =>
    intro t ht
    rw [walkEventsList] at ht
    exact absurd ht (List.not_mem_nil _)
  | cons c cs =>
    intro t ht q hpq hqt
    rw [walkEventsList, List.mem_append] at ht
    rw [walkEventsList, List.mem_append]
    rcases ht with ht | ht
    · exact Or.inl (walk_anc p c t ht q hpq hqt)
    · exact Or.inr (walkEventsList_anc p cs t ht q hpq hqt)
end

/-- Order relation justified by the walk: a testcase event never precedes a
directory event of one of its proper ancestors. -/
def noEarlyDesc : GTask → GTask → Prop
  | .tcTask t, .dirTask D => ¬ underPath D t
  | _, _ => True

mutual
/-- In a walk with pairwise distinct event paths, every directory event
precedes all testcase events strictly beneath it. -/
theorem walk_pw (p : List String) (r : GTree)
    (hnd : ((walkEvents p r).map taskPath).Nodup) :
    (walkEvents p r).Pairwise noEarlyDesc := by
  cases r with
  | tc n =>
    rw [walkEvents]
    exact List.pairwise_singleton _ _
  | dir n cs =>
    rw [walkEvents] at hnd ⊢
    rw [List.pairwise_cons]
    refine ⟨?_, ?_⟩
    · intro ev _
      trivial
    · refine walkEventsList_pw (p ++ [n]) cs ?_
      rw [List.map_cons, List.nodup_cons] at hnd
      exact hnd.2

theorem walkEventsList_pw (p : List String) (cs : List GTree)
    (hnd : ((walkEventsList p cs).map taskPath).Nodup) :
    (walkEventsList p cs).Pairwise noEarlyDesc := by
  cases cs with
  | nil =>
    rw [walkEventsList]
    exact List.Pairwise.nil
  | cons c cs =>
    rw [walkEventsList] at hnd ⊢
    rw [List.map_append, List.nodup_append] at hnd
    obtain ⟨hnd1, hnd2, hdisj⟩ := hnd
    rw [List.pairwise_append]
    refine ⟨walk_pw p c hnd1, walkEventsList_pw p cs hnd2, ?_⟩
    intro a ha b hb
    cases a with
    | dirTask D => trivial
    | tcTask t =>
      cases b with
      | tcTask t2 => trivial
      | dirTask D =>
        intro hu
        have hpD : underPath p D := by
          have := walkEventsList_under p cs _ hb
          exact this
        have hmem : GTask.dirTask D ∈ walkEvents p c :=
          walk_anc p c t ha D hpD hu
        exact hdisj (List.mem_map_of_mem taskPath hmem)
          (List.mem_map_of_mem taskPath hb)
end

/-- C1, amended.  Under parallel execution the guarantee of the run phase
is: a directory's task happens after the completion of every testcase
dispatched *before* it in walk order (the `q.join()` barrier) — and those
are exactly the testcases *not* beneath it, because the walk emits a
directory's task first and only then dispatches its descendants.  Hence,
for any tree with pairwise distinct task paths and any valid execution,
a directory's finalization starts strictly *before* every testcase
strictly beneath it completes, not after. -/
theorem c1_schedule_ordering (r : GTree) (s : Sched)
    (hnd : ((runEvents r).map taskPath).Nodup)
    (hv : validSched (runEvents r) s)
    (i j : Nat) (D t : List String)
    (hi : (runEvents r).get? i = some (.dirTask D))
    (hj : (runEvents r).get? j = some (.tcTask t)) :
    (j < i → s.complete j ≤ s.dispatch i) ∧
    (underPath D t → i < j ∧ s.dispatch i < s.complete j) := by
  obtain ⟨hseq, hdc, hjoin, hsync⟩ := hv
  refine ⟨fun hji => hjoin i j D t hi hj hji, ?_⟩
  intro hu
  have hpw : (runEvents r).Pairwise noEarlyDesc := by
    cases r with
    | tc n =>
      rw [runEvents] at hi
      exact absurd hi (by simp)
    | dir n cs =>
      rw [runEvents] at hnd ⊢
      exact walkEventsList_pw [] cs hnd
  obtain ⟨hil, hgi⟩ := List.get?_eq_some.mp hi
  obtain ⟨hjl, hgj⟩ := List.get?_eq_some.mp hj
  have hij : i < j := by
    rcases Nat.lt_trichotomy i j with h | h | h
    · exact h
    · exfalso
      subst h
      rw [hi] at hj
      simp at hj
    · exfalso
      have hrel := List.pairwise_iff_get.mp hpw ⟨j, hjl⟩ ⟨i, hil⟩ h
      rw [hgi, hgj] at hrel
      exact hrel hu
  exact ⟨hij, lt_of_lt_of_le (hseq i j hij hjl) (hdc j hjl)⟩

/-- Witness for C1 at the concrete tree: the `secret` directory task starts
strictly before its descendant testcase completes in the identity
execution. -/
theorem c1_schedule_ordering_witness :
    ((runEvents tree1).map taskPath).Nodup ∧
    underPath ["secret"] ["secret", "1"] ∧
    (0 < 1 ∧ (Sched.mk id id).dispatch 0 < (Sched.mk id id).complete 1) := by
  refine ⟨by decide, by decide, ?_⟩
  exact (c1_schedule_ordering tree1 ⟨id, id⟩ (by decide) (idSched_valid _)
    0 1 ["secret"] ["secret", "1"] (by decide) (by decide)).2 (by decide)
